import Mathlib

/-!
Verification development for the eventsource-stream SSE parsing pipeline.

The pipeline is modelled at the byte level: a byte is a `Nat` (0..255),
a chunk is a `List Nat`, and the text fields of an `Event` are byte lists.
`CustomEventBuilder` and its `add` / `dispatch` / `is_complete` operations
are translated from `examples/custom_eventbuilder.rs` (the same code appears
in `tests/eventsource-stream.rs`).  The line splitter, the event stream
driver and the spec-compliant builder are not part of the sources available
here, so they are modelled from the design document (sections 4.1 and 4.3),
as marked on each definition.
-/

/-- Byte list of an ASCII string literal (used only for concrete inputs). -/
def bytes (s : String) : List Nat :=
  s.toList.map Char.toNat

/-- RawEventLine, from the library's public API re-exported to the example:
a classified line is a field (name with optional value), a comment, or an
empty line. -/
inductive RawEventLine where
  | field (name : List Nat) (value : Option (List Nat))
  | comment (text : List Nat)
  | empty
deriving DecidableEq, Repr

/-- Event, the externally visible unit, with `retry` in milliseconds. -/
structure Event where
  event : List Nat := []
  data : List Nat := []
  id : List Nat := []
  retry : Option Nat := none
deriving DecidableEq, Repr

instance : Inhabited Event := ⟨{}⟩

/-- State of `CustomEventBuilder` from `examples/custom_eventbuilder.rs`:
an in-progress `Event` plus the completion flag. -/
structure CustomEventBuilder where
  event : Event := {}
  is_complete : Bool := false
deriving DecidableEq, Repr

instance : Inhabited CustomEventBuilder := ⟨{}⟩

/-- The byte list of the field name "event". -/
def sEvent : List Nat := [101, 118, 101, 110, 116]

/-- The byte list of the field name "data". -/
def sData : List Nat := [100, 97, 116, 97]

/-- The byte list of the field name "id". -/
def sId : List Nat := [105, 100]

/-- The byte list of the field name "retry". -/
def sRetry : List Nat := [114, 101, 116, 114, 121]

/-- The byte list of the default event type "message". -/
def sMessage : List Nat := [109, 101, 115, 115, 97, 103, 101]

/-- ASCII digit test on a byte. -/
def isAsciiDigit (c : Nat) : Bool := 48 ≤ c && c ≤ 57

/-- Embedding of Rust core's `u64::from_str` as invoked by
`val.parse::<u64>()` in `CustomEventBuilder::add`: an optional leading
plus sign, then at least one ASCII digit, read in base ten; parsing fails
when the value does not fit in 64 bits. -/
def parseU64 (s : List Nat) : Option Nat :=
  let ds := if s.head? = some 43 then s.drop 1 else s
  if ds = [] then none
  else if ds.all isAsciiDigit then
    let v := ds.foldl (fun acc d => 10 * acc + (d - 48)) 0
    if v < 2 ^ 64 then some v else none
  else none

/-- Modelled from the spec: the library's `is_lf` predicate (imported by the
example from `eventsource_stream` but not among the sources here) recognises
the U+000A line feed character. -/
def is_lf (c : Nat) : Bool := c = 10

/-- Translation of `CustomEventBuilder::add` from
`examples/custom_eventbuilder.rs` lines 40-71. -/
def CustomEventBuilder.add (b : CustomEventBuilder) (line : RawEventLine) :
    CustomEventBuilder :=
  match line with
  | .field f v =>
    let val := v.getD []
    if f = sEvent then
      { b with event := { b.event with event := val } }
    else if f = sData then
      { b with event := { b.event with data := b.event.data ++ val ++ [10] } }
    else if f = sId then
      if val.contains 0 then b
      else { b with event := { b.event with id := val } }
    else if f = sRetry then
      match parseU64 val with
      | some n => { b with event := { b.event with retry := some n } }
      | none => b
    else
      { b with event := { b.event with event := f, data := val } }
  | .comment _ => b
  | .empty => { b with is_complete := true }

/-- Translation of `CustomEventBuilder::dispatch` from
`examples/custom_eventbuilder.rs` lines 73-91: the state is replaced by a
default one carrying only the id forward, and the taken event is returned
after trailing-LF stripping and the "message" default. -/
def CustomEventBuilder.dispatch (b : CustomEventBuilder) :
    Option Event × CustomEventBuilder :=
  let ev := b.event
  let b' : CustomEventBuilder :=
    { event := { event := [], data := [], id := ev.id, retry := none },
      is_complete := false }
  if h : ev.data = [] then (none, b')
  else
    let data1 := if is_lf (ev.data.getLast h) then ev.data.dropLast else ev.data
    let ev1 := if ev.event = [] then sMessage else ev.event
    (some { event := ev1, data := data1, id := ev.id, retry := ev.retry }, b')

/-- Variant of `CustomEventBuilder.dispatch` that makes the possible failure
of `event.data.chars().next_back().unwrap()` explicit: `none` models the
panic of `unwrap` on an empty iterator, mirroring the Rust control flow
byte for byte. -/
def CustomEventBuilder.dispatchChecked (b : CustomEventBuilder) :
    Option (Option Event × CustomEventBuilder) :=
  let ev := b.event
  let b' : CustomEventBuilder :=
    { event := { event := [], data := [], id := ev.id, retry := none },
      is_complete := false }
  if ev.data = [] then some (none, b')
  else
    match ev.data.getLast? with
    | none => none
    | some c =>
      let data1 := if is_lf c then ev.data.dropLast else ev.data
      let ev1 := if ev.event = [] then sMessage else ev.event
      some (some { event := ev1, data := data1, id := ev.id, retry := ev.retry }, b')

/-- Modelled from the spec: `SpecCompliantEventBuilder` (declared in
`src/traits.rs` but defined in the missing `event_stream` module) follows
section 4.2's table with the spec-compliant last row: fields other than
event/data/id/retry are ignored entirely, comments have no effect, an empty
line marks completion. -/
structure SpecCompliantEventBuilder where
  event : Event := {}
  is_complete : Bool := false
deriving DecidableEq, Repr

instance : Inhabited SpecCompliantEventBuilder := ⟨{}⟩

/-- Modelled from the spec: the `add` operation of the spec-compliant
builder, per the field-processing table of section 4.2 with unknown fields
ignored. -/
def SpecCompliantEventBuilder.add (b : SpecCompliantEventBuilder)
    (line : RawEventLine) : SpecCompliantEventBuilder :=
  match line with
  | .field f v =>
    let val := v.getD []
    if f = sEvent then
      { b with event := { b.event with event := val } }
    else if f = sData then
      { b with event := { b.event with data := b.event.data ++ val ++ [10] } }
    else if f = sId then
      if val.contains 0 then b
      else { b with event := { b.event with id := val } }
    else if f = sRetry then
      match parseU64 val with
      | some n => { b with event := { b.event with retry := some n } }
      | none => b
    else b
  | .comment _ => b
  | .empty => { b with is_complete := true }

/-- Modelled from the spec: the dispatch algorithm of section 4.2 for the
spec-compliant builder, identical to `CustomEventBuilder.dispatch`. -/
def SpecCompliantEventBuilder.dispatch (b : SpecCompliantEventBuilder) :
    Option Event × SpecCompliantEventBuilder :=
  let ev := b.event
  let b' : SpecCompliantEventBuilder :=
    { event := { event := [], data := [], id := ev.id, retry := none },
      is_complete := false }
  if h : ev.data = [] then (none, b')
  else
    let data1 := if is_lf (ev.data.getLast h) then ev.data.dropLast else ev.data
    let ev1 := if ev.event = [] then sMessage else ev.event
    (some { event := ev1, data := data1, id := ev.id, retry := ev.retry }, b')

/-- Modelled from the spec: one extraction attempt of the line splitter of
section 4.1 while the source is not exhausted.  It scans for the first line
terminator and returns the line before it together with the bytes after it;
a carriage return at the very end of the available bytes defers the
decision (result `none`), as does the absence of any terminator. -/
def findTerm : List Nat → Option (List Nat × List Nat)
  | [] => none
  | c :: rest =>
    if c = 10 then some ([], rest)
    else if c = 13 then
      if rest = [] then none
      else if rest.head? = some 10 then some ([], rest.tail) else some ([], rest)
    else
      match findTerm rest with
      | some p => some (c :: p.1, p.2)
      | none => none

theorem findTerm_length {b l r : List Nat} (h : findTerm b = some (l, r)) :
    r.length < b.length := by
  induction b generalizing l r with
  | nil => simp [findTerm] at h
  | cons c rest ih =>
    simp only [findTerm] at h
    split_ifs at h with h10 h13 hnil hlf
    · cases h
      simp
    · cases h
      cases rest with
      | nil => simp at hnil
      | cons d rs => simp; omega
    · cases h
      simp [List.length_pos, hnil]
    · cases hf : findTerm rest with
      | none => rw [hf] at h; cases h
      | some p =>
        rw [hf] at h
        cases h
        have := ih (l := p.1) (r := p.2) (by rw [hf])
        simp
        omega

/-- Fuelled extraction loop: each step extracts one complete line via
`findTerm`; the fuel only bounds the number of steps and is irrelevant once
it is at least the buffer length (`takeLinesF_fuel`). -/
def takeLinesF : Nat → List Nat → List (List Nat) × List Nat
  | 0, b => ([], b)
  | fuel + 1, b =>
    match findTerm b with
    | none => ([], b)
    | some (l, r) =>
      let p := takeLinesF fuel r
      (l :: p.1, p.2)

/-- Modelled from the spec: greedy extraction of all currently available
complete lines from the buffer, returning them with the unconsumed rest. -/
def takeLines (b : List Nat) : List (List Nat) × List Nat :=
  takeLinesF b.length b

/-- Modelled from the spec: at end of source, the unconsumed rest of the
buffer becomes at most one final line — a trailing carriage return now
counts as a terminator, and an unterminated final line is flushed with
end-of-source as its implicit terminator. -/
def finalLine (r : List Nat) : List (List Nat) :=
  if r = [] then []
  else if r.getLast? = some 13 then [r.dropLast] else [r]

/-- Modelled from the spec: the driver's accumulation loop over chunks:
append each chunk to the buffer, extract the complete lines, and at end of
source flush the final line. -/
def linesAux : List Nat → List (List Nat) → List (List Nat)
  | buf, [] => (takeLines buf).1 ++ finalLine (takeLines buf).2
  | buf, c :: cs =>
    let p := takeLines (buf ++ c)
    p.1 ++ linesAux p.2 cs

/-- Modelled from the spec: the logical lines of a chunked byte stream. -/
def linesOfChunks (chunks : List (List Nat)) : List (List Nat) :=
  linesAux [] chunks

/-- All logical lines of a single unsplit body. -/
def linesOfAll (b : List Nat) : List (List Nat) :=
  (takeLines b).1 ++ finalLine (takeLines b).2

/-- Modelled from the spec: strip a UTF-8 byte-order mark prefix. -/
def stripBOM (l : List Nat) : List Nat :=
  if l.take 3 = [239, 187, 191] then l.drop 3 else l

/-- Modelled from the spec: the byte-order mark is stripped from the very
first line of the whole stream only. -/
def stripBOMFirst : List (List Nat) → List (List Nat)
  | [] => []
  | l :: ls => stripBOM l :: ls

/-- Modelled from the spec: split a line at its first colon byte. -/
def splitColon : List Nat → Option (List Nat × List Nat)
  | [] => none
  | c :: rest =>
    if c = 58 then some ([], rest)
    else
      match splitColon rest with
      | some p => some (c :: p.1, p.2)
      | none => none

/-- Modelled from the spec: at most one leading space is trimmed from a
field value. -/
def stripOneSpace (v : List Nat) : List Nat :=
  match v with
  | 32 :: rest => rest
  | _ => v

/-- Modelled from the spec: classification of an extracted line (section
4.1): zero-length is `Empty`; a leading colon is a comment; otherwise split
at the first colon into name and value (one leading space stripped from the
value) or, with no colon, the whole line is a field name with no value. -/
def classifyLine (l : List Nat) : RawEventLine :=
  match l with
  | [] => .empty
  | c :: rest =>
    if c = 58 then .comment rest
    else
      match splitColon l with
      | some p => .field p.1 (some (stripOneSpace p.2))
      | none => .field l none

/-- Modelled from the spec: the driver feeds each classified line to the
builder's `add`, checks `is_complete` after each line, and on completion
immediately dispatches, emitting the produced events in order.  The builder
strategy is a parameter, per the pluggable capability of section 4.2. -/
def runLinesWith {σ : Type} (add : σ → RawEventLine → σ)
    (disp : σ → Option Event × σ) (isc : σ → Bool) :
    σ → List RawEventLine → List Event
  | _, [] => []
  | b, l :: ls =>
    let b1 := add b l
    if isc b1 then
      match disp b1 with
      | (some e, b2) => e :: runLinesWith add disp isc b2 ls
      | (none, b2) => runLinesWith add disp isc b2 ls
    else runLinesWith add disp isc b1 ls

/-- Modelled from the spec: the full pipeline for an arbitrary builder
strategy: split the chunked bytes into lines, strip the initial byte-order
mark, classify, and run the builder protocol. -/
def eventsOfChunks {σ : Type} (add : σ → RawEventLine → σ)
    (disp : σ → Option Event × σ) (isc : σ → Bool) (b0 : σ)
    (chunks : List (List Nat)) : List Event :=
  runLinesWith add disp isc b0 ((stripBOMFirst (linesOfChunks chunks)).map classifyLine)

/-- The pipeline with the custom builder of the example. -/
def processChunks (chunks : List (List Nat)) : List Event :=
  eventsOfChunks CustomEventBuilder.add CustomEventBuilder.dispatch
    CustomEventBuilder.is_complete {} chunks

/-- The pipeline with the spec-compliant builder. -/
def processChunksSpec (chunks : List (List Nat)) : List Event :=
  eventsOfChunks SpecCompliantEventBuilder.add SpecCompliantEventBuilder.dispatch
    SpecCompliantEventBuilder.is_complete {} chunks

/-- An operation of the builder protocol, for stating protocol-level
invariants: either an `add` of a classified line or a `dispatch`. -/
inductive BuilderOp where
  | add (l : RawEventLine)
  | dispatch
deriving DecidableEq, Repr

/-- Run a sequence of protocol operations on a custom builder state. -/
def runOps : CustomEventBuilder → List BuilderOp → CustomEventBuilder
  | b, [] => b
  | b, .add l :: ops => runOps (b.add l) ops
  | b, .dispatch :: ops => runOps (b.dispatch).2 ops

/-- Line feed joined concatenation: the values joined by single line-feed
separators. -/
def joinLF : List (List Nat) → List Nat
  | [] => []
  | [v] => v
  | v :: vs => v ++ 10 :: joinLF vs

/-- The test body of `populate_fields` in `tests/eventsource-stream.rs`:
two complete cycles followed by a trailing data line never closed by an
empty line before the source ends. -/
def testBody : List Nat :=
  bytes "\n\n:\n\nevent: my-event\r\ndata:line1\ndata: line2\n:\nid: my-id\n:should be ignored too\rretry:42\n\ndata:second\n\ndata:ignored\n"

theorem findTerm_append {b l r : List Nat} (c : List Nat)
    (h : findTerm b = some (l, r)) : findTerm (b ++ c) = some (l, r ++ c) := by
  induction b generalizing l r with
  | nil => simp [findTerm] at h
  | cons x xs ih =>
    simp only [findTerm, List.cons_append] at h ⊢
    split_ifs at h with h10 h13 hnil hlf
    · cases h
      simp [h10]
    · cases h
      cases xs with
      | nil => simp at hnil
      | cons d rs =>
        simp only [List.head?_cons, Option.some.injEq] at hlf
        simp [h10, h13, List.cons_append, hlf]
    · cases h
      cases xs with
      | nil => simp at hnil
      | cons d rs =>
        simp only [List.head?_cons, Option.some.injEq] at hlf
        simp [h10, h13, List.cons_append, hlf]
    · simp only [List.append_eq]
      cases hf : findTerm xs with
      | none => rw [hf] at h; cases h
      | some p =>
        rw [hf] at h
        cases h
        have hp : findTerm xs = some (p.1, p.2) := by rw [hf]
        simp [h10, h13, ih hp]

theorem takeLinesF_fuel (f1 f2 : Nat) (b : List Nat) (h1 : b.length ≤ f1)
    (h2 : b.length ≤ f2) : takeLinesF f1 b = takeLinesF f2 b := by
  induction f1 generalizing b f2 with
  | zero =>
    have hb : b = [] := List.length_eq_zero.mp (Nat.le_zero.mp h1)
    subst hb
    cases f2 with
    | zero => rfl
    | succ f2 => rfl
  | succ f1 ih =>
    cases f2 with
    | zero =>
      have hb : b = [] := List.length_eq_zero.mp (Nat.le_zero.mp h2)
      subst hb
      rfl
    | succ f2 =>
      simp only [takeLinesF]
      cases hf : findTerm b with
      | none => rfl
      | some p =>
        obtain ⟨l, r⟩ := p
        have hr := findTerm_length hf
        dsimp only
        rw [ih f2 r (by omega) (by omega)]

theorem takeLines_of_none {b : List Nat} (h : findTerm b = none) :
    takeLines b = ([], b) := by
  unfold takeLines
  cases b with
  | nil => rfl
  | cons x xs =>
    show takeLinesF (xs.length + 1) (x :: xs) = _
    simp only [takeLinesF, h]

theorem takeLines_of_some {b l r : List Nat} (h : findTerm b = some (l, r)) :
    takeLines b = (l :: (takeLines r).1, (takeLines r).2) := by
  unfold takeLines
  cases b with
  | nil => simp [findTerm] at h
  | cons x xs =>
    have hr : r.length < (x :: xs).length := findTerm_length h
    show takeLinesF (xs.length + 1) (x :: xs) = _
    simp only [takeLinesF, h]
    rw [takeLinesF_fuel xs.length r.length r (Nat.lt_succ_iff.mp hr) (le_refl _)]

theorem takeLines_append (b c : List Nat) :
    takeLines (b ++ c) =
      ((takeLines b).1 ++ (takeLines ((takeLines b).2 ++ c)).1,
        (takeLines ((takeLines b).2 ++ c)).2) := by
  cases hf : findTerm b with
  | none =>
    rw [takeLines_of_none hf]
    simp
  | some p =>
    obtain ⟨l, r⟩ := p
    rw [takeLines_of_some hf, takeLines_of_some (findTerm_append c hf),
      takeLines_append r c]
    simp
termination_by b.length
decreasing_by exact findTerm_length hf

theorem linesAux_eq (cs : List (List Nat)) (buf : List Nat) :
    linesAux buf cs = linesOfAll (buf ++ cs.flatten) := by
  induction cs generalizing buf with
  | nil => simp [linesAux, linesOfAll]
  | cons c cs ih =>
    show (takeLines (buf ++ c)).1 ++ linesAux (takeLines (buf ++ c)).2 cs = _
    rw [ih]
    unfold linesOfAll
    rw [List.flatten_cons]
    conv_rhs => rw [← List.append_assoc]
    rw [takeLines_append (buf ++ c) cs.flatten]
    simp

theorem linesOfChunks_eq (chunks : List (List Nat)) :
    linesOfChunks chunks = linesOfAll chunks.flatten := by
  unfold linesOfChunks
  simpa using linesAux_eq chunks []

theorem add_field_is_complete (b : CustomEventBuilder) (f : List Nat)
    (v : Option (List Nat)) :
    (b.add (.field f v)).is_complete = b.is_complete := by
  unfold CustomEventBuilder.add
  dsimp only
  split_ifs <;> (try split) <;> rfl

theorem add_comment_is_complete (b : CustomEventBuilder) (t : List Nat) :
    (b.add (.comment t)).is_complete = b.is_complete := rfl

theorem dispatch_data_concat (b : CustomEventBuilder) (d : List Nat)
    (hd : b.event.data = d ++ [10]) :
    Option.map Event.data (b.dispatch).1 = some d := by
  obtain ⟨⟨ev, da, i, re⟩, ic⟩ := b
  simp only at hd
  subst hd
  unfold CustomEventBuilder.dispatch
  have h1 : d ++ [10] ≠ ([] : List Nat) := by simp
  rw [dif_neg h1]
  simp [is_lf, List.getLast_concat, List.dropLast_concat]

theorem joinLF_flatten (vs : List (List Nat)) (h : vs ≠ []) :
    (vs.map (fun v => v ++ [10])).flatten = joinLF vs ++ [10] := by
  induction vs with
  | nil => exact absurd rfl h
  | cons v vs ih =>
    cases vs with
    | nil => simp [joinLF]
    | cons w ws =>
      calc ((v :: w :: ws).map (fun v => v ++ [10])).flatten
          = (v ++ [10]) ++ ((w :: ws).map (fun v => v ++ [10])).flatten := rfl
        _ = (v ++ [10]) ++ (joinLF (w :: ws) ++ [10]) := by rw [ih (by simp)]
        _ = joinLF (v :: w :: ws) ++ [10] := by simp [joinLF]

theorem foldl_data (vs : List (List Nat)) (b : CustomEventBuilder) :
    (vs.foldl (fun b v => b.add (.field sData (some v))) b).event.data =
      b.event.data ++ (vs.map (fun v => v ++ [10])).flatten := by
  induction vs generalizing b with
  | nil => simp
  | cons v vs ih =>
    simp only [List.foldl_cons, List.map_cons, List.flatten_cons]
    rw [ih]
    have ha : ((b.add (.field sData (some v)))).event.data =
        b.event.data ++ v ++ [10] := rfl
    rw [ha]
    simp

/-- C2: in a cycle with `n ≥ 1` data field lines of values `v1..vn`, each
add appends the value and exactly one line feed to the data buffer, and
dispatch removes exactly one trailing line feed, so the dispatched data is
the values joined by single line-feed separators. -/
theorem data_accumulates_and_joins (vs : List (List Nat)) (h : vs ≠ []) :
    (∀ b v, (CustomEventBuilder.add b (.field sData (some v))).event.data =
      b.event.data ++ v ++ [10]) ∧
    Option.map Event.data
      ((vs.foldl (fun b v => b.add (.field sData (some v)))
        ({} : CustomEventBuilder)).dispatch).1 = some (joinLF vs) := by
  refine ⟨fun b v => rfl, ?_⟩
  apply dispatch_data_concat
  rw [foldl_data]
  simp [joinLF_flatten vs h]

/-- Witness for C2 at the spec's own example: "data: line1", "data: line2"
then dispatch yields data "line1",LF,"line2". -/
theorem data_accumulates_and_joins_witness :
    Option.map Event.data
      (([bytes "line1", bytes "line2"].foldl
        (fun b v => b.add (.field sData (some v)))
        ({} : CustomEventBuilder)).dispatch).1 = some (bytes "line1\nline2") :=
  ((data_accumulates_and_joins [bytes "line1", bytes "line2"]
    (by decide)).2).trans (by decide)

/-- C3: dispatch carries the id forward unchanged and resets the
event-type, data and retry buffers (and the completion flag); on an
empty-data cycle it returns nothing, still keeping the id. -/
theorem dispatch_keeps_id_resets_rest (b : CustomEventBuilder) :
    ((b.dispatch).2.event.id = b.event.id ∧
      (b.dispatch).2.event.event = [] ∧
      (b.dispatch).2.event.data = [] ∧
      (b.dispatch).2.event.retry = none ∧
      (b.dispatch).2.is_complete = false) ∧
    (b.event.data = [] → (b.dispatch).1 = none) := by
  unfold CustomEventBuilder.dispatch
  dsimp only
  constructor
  · refine ⟨?_, ?_, ?_, ?_, ?_⟩ <;> (split <;> rfl)
  · intro h
    rw [dif_pos h]

/-- C4 counterexample: a cycle of `event:` with an empty value followed by
non-empty data dispatches event type "message", not the empty string that
the claim asserts. -/
theorem empty_event_type_dispatches_message :
    processChunks [bytes "event:\ndata:x\n\n"] =
      [{ event := sMessage, data := bytes "x", id := [], retry := none }] ∧
    sMessage ≠ ([] : List Nat) := by
  decide

/-- C4 as amended: an `event` field replaces the event-type buffer with its
value verbatim (even when empty), and dispatch defaults the dispatched type
to "message" whenever the buffer is empty at dispatch time, whether never
set or set to the empty string. -/
theorem event_field_verbatim_and_empty_defaults (b : CustomEventBuilder)
    (v : List Nat) :
    ((b.add (.field sEvent (some v))).event.event = v) ∧
    (b.event.data ≠ [] →
      Option.map Event.event (b.dispatch).1 =
        some (if b.event.event = [] then sMessage else b.event.event)) := by
  refine ⟨rfl, fun h => ?_⟩
  unfold CustomEventBuilder.dispatch
  rw [dif_neg h]
  simp

/-- C5: evaluation at the failing input: the value "+42" is not composed
solely of ASCII digits, yet `CustomEventBuilder.add` sets the reconnection
time to 42 milliseconds because Rust's `u64` parsing accepts an optional
leading plus sign. -/
theorem retry_accepts_leading_plus :
    ((({} : CustomEventBuilder).add
        (.field sRetry (some (bytes "+42")))).event.retry = some 42) ∧
    (bytes "+42").all isAsciiDigit = false := by
  decide

/-- C6: under the custom strategy an unrecognized field sets the event-type
buffer to the field name and the data buffer to the raw value (an absent
value acting as the empty string), and the full pipeline on
"customfield: v" followed by an empty line dispatches exactly that event. -/
theorem custom_field_sets_event_and_data (b : CustomEventBuilder)
    (f v : List Nat) (h1 : f ≠ sEvent) (h2 : f ≠ sData) (h3 : f ≠ sId)
    (h4 : f ≠ sRetry) :
    ((b.add (.field f (some v))).event.event = f ∧
      (b.add (.field f (some v))).event.data = v ∧
      (b.add (.field f none)).event.event = f ∧
      (b.add (.field f none)).event.data = []) ∧
    processChunks [bytes "customfield: v\n\n"] =
      [{ event := bytes "customfield", data := bytes "v",
         id := [], retry := none }] := by
  constructor
  · unfold CustomEventBuilder.add
    simp [h1, h2, h3, h4]
  · decide

/-- Witness for C6 at the spec's concrete example field. -/
theorem custom_field_sets_event_and_data_witness :
    processChunks [bytes "customfield: v\n\n"] =
      [{ event := bytes "customfield", data := bytes "v",
         id := [], retry := none }] :=
  (custom_field_sets_event_and_data {} (bytes "customfield") (bytes "v")
    (by decide) (by decide) (by decide) (by decide)).2

/-- C8: dispatch never fails: the checked variant, in which the `unwrap`
of the data buffer's last character is an explicit failure point, always
succeeds and agrees with `dispatch`, because the unwrap is guarded by the
preceding empty-data early return (`add` is total by construction: no
fallible operation occurs in it). -/
theorem dispatch_never_panics (b : CustomEventBuilder) :
    b.dispatchChecked = some b.dispatch := by
  unfold CustomEventBuilder.dispatch CustomEventBuilder.dispatchChecked
  by_cases h : b.event.data = []
  · rw [if_pos h, dif_pos h]
  · rw [if_neg h, dif_neg h, List.getLast?_eq_getLast _ h]

/-- C9: an unrecognized field added after earlier data lines replaces the
whole data buffer with its value by assignment, discarding what was
accumulated. -/
theorem unrecognized_field_overwrites_data (b : CustomEventBuilder)
    (f v : List Nat) (h1 : f ≠ sEvent) (h2 : f ≠ sData) (h3 : f ≠ sId)
    (h4 : f ≠ sRetry) :
    (b.add (.field f (some v))).event.data = v := by
  unfold CustomEventBuilder.add
  simp [h1, h2, h3, h4]

/-- Witness for C9: after a `data` line accumulated "a" and a line feed,
an unrecognized field "x" leaves the data buffer equal to its own value. -/
theorem unrecognized_field_overwrites_data_witness :
    ((({} : CustomEventBuilder).add (.field sData (some (bytes "a")))).add
      (.field (bytes "x") (some (bytes "b")))).event.data = bytes "b" :=
  unrecognized_field_overwrites_data _ _ _
    (by decide) (by decide) (by decide) (by decide)

/-- C1: for every input byte sequence and every partitioning of it into
chunks, the sequence of events emitted by the pipeline is identical to the
one emitted when the whole body is supplied as a single chunk, whatever
builder strategy is plugged in. -/
theorem chunking_invariance {σ : Type} (add : σ → RawEventLine → σ)
    (disp : σ → Option Event × σ) (isc : σ → Bool) (b0 : σ)
    (chunks : List (List Nat)) :
    eventsOfChunks add disp isc b0 chunks =
      eventsOfChunks add disp isc b0 [chunks.flatten] := by
  unfold eventsOfChunks
  rw [linesOfChunks_eq chunks, linesOfChunks_eq [chunks.flatten]]
  simp

theorem dispatch_snd_is_complete (b : CustomEventBuilder) :
    (b.dispatch).2.is_complete = false := by
  unfold CustomEventBuilder.dispatch
  dsimp only
  split <;> rfl

theorem exists_split_cons (op x y : BuilderOp) (ops : List BuilderOp) :
    (∃ l₁ l₂, op :: ops = l₁ ++ x :: l₂ ∧ y ∉ l₂) ↔
      ((op = x ∧ y ∉ ops) ∨ ∃ l₁ l₂, ops = l₁ ++ x :: l₂ ∧ y ∉ l₂) := by
  constructor
  · rintro ⟨l₁, l₂, heq, hni⟩
    cases l₁ with
    | nil =>
      simp only [List.nil_append, List.cons.injEq] at heq
      exact Or.inl ⟨heq.1, by rw [heq.2]; exact hni⟩
    | cons a l₁ =>
      simp only [List.cons_append, List.cons.injEq] at heq
      exact Or.inr ⟨l₁, l₂, heq.2, hni⟩
  · rintro (⟨rfl, hni⟩ | ⟨l₁, l₂, heq, hni⟩)
    · exact ⟨[], ops, rfl, hni⟩
    · exact ⟨op :: l₁, l₂, by rw [heq, List.cons_append], hni⟩

theorem runOps_is_complete (ops : List BuilderOp) (b : CustomEventBuilder) :
    (runOps b ops).is_complete = true ↔
      ((∃ l₁ l₂, ops = l₁ ++ BuilderOp.add .empty :: l₂ ∧
          BuilderOp.dispatch ∉ l₂) ∨
        (b.is_complete = true ∧ BuilderOp.dispatch ∉ ops)) := by
  induction ops generalizing b with
  | nil => simp [runOps]
  | cons op ops ih =>
    cases op with
    | add l =>
      show (runOps (b.add l) ops).is_complete = true ↔ _
      rw [ih, exists_split_cons]
      cases l with
      | empty =>
        rw [show (b.add .empty).is_complete = true from rfl]
        simp only [List.mem_cons, eq_self_iff_true, true_and]
        constructor
        · rintro (h | h)
          · exact Or.inl (Or.inr h)
          · exact Or.inl (Or.inl h)
        · rintro ((h | h) | ⟨_, h⟩)
          · exact Or.inr h
          · exact Or.inl h
          · exact Or.inr fun hm => h (Or.inr hm)
      | field f v =>
        rw [add_field_is_complete]
        simp only [List.mem_cons]
        simp
      | comment t =>
        rw [add_comment_is_complete]
        simp only [List.mem_cons]
        simp
    | dispatch =>
      show (runOps (b.dispatch).2 ops).is_complete = true ↔ _
      rw [ih, exists_split_cons, dispatch_snd_is_complete]
      simp only [List.mem_cons]
      simp

/-- C7: starting from the default builder state, `is_complete` is true
exactly when the operation sequence contains an add of an Empty line with
no dispatch afterwards: add(Empty) sets it, dispatch resets it, and adds of
Field or Comment lines leave it unchanged. -/
theorem is_complete_iff_pending_empty (ops : List BuilderOp) :
    (runOps {} ops).is_complete = true ↔
      ∃ l₁ l₂, ops = l₁ ++ BuilderOp.add .empty :: l₂ ∧
        BuilderOp.dispatch ∉ l₂ := by
  rw [runOps_is_complete]
  simp [show ({} : CustomEventBuilder).is_complete = false from rfl]

/-- C10: on the populate_fields test body, whose final cycle has a data
line but is never closed by an empty line before the source ends, the
spec-compliant pipeline emits exactly the two closed events: nothing is
dispatched for the trailing partial cycle. -/
theorem exhausted_partial_cycle_yields_no_event :
    processChunksSpec [testBody] =
      [{ event := bytes "my-event", data := bytes "line1\nline2",
         id := bytes "my-id", retry := some 42 },
       { event := sMessage, data := bytes "second",
         id := bytes "my-id", retry := none }] := by
  decide
